import Mathlib

/-!
Verification development for the QuizMe core components:

* the SM-2 review scheduler (`src/spaced-repetition.js`, `calculateNextReview`);
* the open-answer grader (`public/app.js` / `docs/implementation-plan.md`,
  `submitOpenAnswer`);
* the LLM response parser (`src/quiz-generator.js`, `sanitizeJsonString` and
  `parseQuestions`);
* the due-question selection policy (`src/database.js`, `getDueQuestions`).

Embedding conventions.  JavaScript strings are embedded as `List Char`; JSON
values as the `Json` inductive below.  JSON numbers are embedded by their
integer truncation (the payloads the repo parses carry small integer
difficulties; IEEE-754 float layout is out of scope), and number literals
with exponent parts are not modelled.  JavaScript floating-point arithmetic
in the scheduler and the grader is embedded as exact rational arithmetic.
Recursive string scans take explicit fuel, sized so that it never runs out
on the call paths the embedded code performs, which keeps every definition
evaluable inside the kernel.  Failure (a thrown `TypeError`) is modelled
with `Except`.
-/

/-- A JavaScript string, embedded as its list of characters. -/
def jstr (s : String) : List Char := s.data

/-- Whitespace recognised by JSON (`JSON.parse` value separators). -/
def isJsonWsChar (c : Char) : Bool :=
  c == ' ' || c == '\t' || c == '\n' || c == '\r'

/-- Whitespace recognised by JavaScript `String.prototype.trim`, `parseInt`
and the regex class `\s` (ASCII part plus NBSP and BOM; the rarely-seen
further Unicode space separators are not modelled). -/
def isTrimWsChar (c : Char) : Bool :=
  isJsonWsChar c || c == '\x0B' || c == '\x0C' || c == '\xA0' || c == '﻿'

/-- JavaScript `String.prototype.trim`. -/
def jsTrim (s : List Char) : List Char :=
  ((s.dropWhile isTrimWsChar).reverse.dropWhile isTrimWsChar).reverse

/-- Index of the first occurrence of a character (`String.prototype.indexOf`
with a single-character needle), `none` for `-1`. -/
def idxOfChar (c : Char) : List Char → Option Nat
  | [] => none
  | x :: r => if x = c then some 0 else (idxOfChar c r).map (· + 1)

/-- Index of the last occurrence of a character
(`String.prototype.lastIndexOf`), `none` for `-1`. -/
def lastIdxOfChar (c : Char) (s : List Char) : Option Nat :=
  (idxOfChar c s.reverse).map (fun i => s.length - 1 - i)

/-- JavaScript `String.prototype.slice` with non-negative bounds. -/
def jsSlice (s : List Char) (start stop : Nat) : List Char :=
  (s.take stop).drop start

/-- Index of the first occurrence of a substring, `none` when absent. -/
def findSubAux (pat : List Char) : List Char → Option Nat
  | [] => if pat.isEmpty then some 0 else none
  | c :: r =>
    if pat.isPrefixOf (c :: r) then some 0 else (findSubAux pat r).map (· + 1)

/-- JSON values, as produced by `JSON.parse`.  Object fields are kept in
source order; lookup takes the last binding, matching the duplicate-key
behaviour of `JSON.parse`. -/
inductive Json where
  | null
  | bool (b : Bool)
  | num (n : Int)
  | str (s : List Char)
  | arr (elems : List Json)
  | obj (fields : List (List Char × Json))

/-- JavaScript property access `v[key]`: `some` for a present field, `none`
for `undefined`.  On a plain JSON object a later duplicate binding wins;
on every non-object value the properties the parser reads are absent. -/
def jsGet (v : Json) (key : List Char) : Option Json :=
  match v with
  | Json.obj fields =>
    fields.foldl (fun acc p => if p.1 = key then some p.2 else acc) none
  | _ => none

/-- JavaScript truthiness of a JSON value.  A number is truthy when nonzero
(fractional values are embedded by their truncation, see the header note). -/
def jsTruthy : Json → Bool
  | Json.null => false
  | Json.bool b => b
  | Json.num n => decide (n ≠ 0)
  | Json.str s => !s.isEmpty
  | Json.arr _ => true
  | Json.obj _ => true

/-- Truthiness of a possibly-absent (`undefined`) value. -/
def jsTruthyO : Option Json → Bool
  | none => false
  | some v => jsTruthy v

/-- Value of a hexadecimal digit. -/
def hexDigitVal (c : Char) : Option Nat :=
  if '0' ≤ c ∧ c ≤ '9' then some (c.toNat - 48)
  else if 'a' ≤ c ∧ c ≤ 'f' then some (c.toNat - 87)
  else if 'A' ≤ c ∧ c ≤ 'F' then some (c.toNat - 55)
  else none

/-- Body of a JSON string literal after the opening quote: returns the
decoded characters and the remainder after the closing quote.  Raw control
characters are rejected, exactly as `JSON.parse` rejects them. -/
def parseStrBody : List Char → Option (List Char × List Char)
  | [] => none
  | '"' :: rest => some ([], rest)
  | '\\' :: rest =>
    (match rest with
     | '"' :: r => (parseStrBody r).map (fun p => ('"' :: p.1, p.2))
     | '\\' :: r => (parseStrBody r).map (fun p => ('\\' :: p.1, p.2))
     | '/' :: r => (parseStrBody r).map (fun p => ('/' :: p.1, p.2))
     | 'b' :: r => (parseStrBody r).map (fun p => (Char.ofNat 8 :: p.1, p.2))
     | 'f' :: r => (parseStrBody r).map (fun p => (Char.ofNat 12 :: p.1, p.2))
     | 'n' :: r => (parseStrBody r).map (fun p => ('\n' :: p.1, p.2))
     | 'r' :: r => (parseStrBody r).map (fun p => ('\r' :: p.1, p.2))
     | 't' :: r => (parseStrBody r).map (fun p => ('\t' :: p.1, p.2))
     | 'u' :: h1 :: h2 :: h3 :: h4 :: r =>
       (match hexDigitVal h1, hexDigitVal h2, hexDigitVal h3, hexDigitVal h4 with
        | some a, some b, some c, some d =>
          (parseStrBody r).map
            (fun p => (Char.ofNat (((a * 16 + b) * 16 + c) * 16 + d) :: p.1, p.2))
        | _, _, _, _ => none)
     | _ => none)
  | c :: rest =>
    if c.toNat < 32 then none
    else (parseStrBody rest).map (fun p => (c :: p.1, p.2))

/-- Numeric value of a list of decimal digits. -/
def decDigitsVal (ds : List Char) : Nat :=
  ds.foldl (fun a c => a * 10 + (c.toNat - 48)) 0

/-- Rejects an exponent part (not modelled, see the header note). -/
def expCheck (n : Nat) (r : List Char) : Option (Nat × List Char) :=
  match r with
  | c :: _ => if c = 'e' ∨ c = 'E' then none else some (n, r)
  | [] => some (n, [])

/-- Consumes an optional fraction part (the digits are required by the JSON
grammar; the value is truncated toward zero per the header note). -/
def parseFrac (n : Nat) (s : List Char) : Option (Nat × List Char) :=
  match s with
  | '.' :: rest =>
    let ds := rest.takeWhile Char.isDigit
    if ds.isEmpty then none else expCheck n (rest.dropWhile Char.isDigit)
  | r => expCheck n r

/-- Magnitude of a JSON number literal: `0`, or a nonzero-leading digit run,
per the JSON grammar (leading zeros rejected). -/
def parseNumCore : List Char → Option (Nat × List Char)
  | [] => none
  | '0' :: rest =>
    (match rest with
     | c :: _ => if c.isDigit then none else parseFrac 0 rest
     | [] => some (0, []))
  | c :: rest =>
    if c.isDigit then
      parseFrac (decDigitsVal ((c :: rest).takeWhile Char.isDigit))
        ((c :: rest).dropWhile Char.isDigit)
    else none

/-- A JSON number token with optional leading minus. -/
def parseNum : List Char → Option (Json × List Char)
  | '-' :: r => (parseNumCore r).map (fun p => (Json.num (-(p.1 : Int)), p.2))
  | r => (parseNumCore r).map (fun p => (Json.num (p.1 : Int), p.2))

/-- Drop leading JSON whitespace. -/
def skipJsonWs (s : List Char) : List Char := s.dropWhile isJsonWsChar

/-- One JSON value, strict grammar, returning the remainder.  The tail of an
array (resp. object) after a comma is parsed by re-entering with a synthetic
opening bracket, which matches the grammar of the remaining elements; a
separator comma directly followed by a closing bracket is rejected, as in
`JSON.parse`.  Fuel decreases on every recursive call; callers supply fuel
larger than the input length, which can never run out (each recursive call's
input is strictly shorter). -/
def parseVal : Nat → List Char → Option (Json × List Char)
  | 0, _ => none
  | f + 1, s0 =>
    match skipJsonWs s0 with
    | 'n' :: 'u' :: 'l' :: 'l' :: r => some (Json.null, r)
    | 't' :: 'r' :: 'u' :: 'e' :: r => some (Json.bool true, r)
    | 'f' :: 'a' :: 'l' :: 's' :: 'e' :: r => some (Json.bool false, r)
    | '"' :: r => (parseStrBody r).map (fun p => (Json.str p.1, p.2))
    | '[' :: r =>
      (match skipJsonWs r with
       | ']' :: r2 => some (Json.arr [], r2)
       | r1 =>
         match parseVal f r1 with
         | none => none
         | some (v, r2) =>
           match skipJsonWs r2 with
           | ']' :: r3 => some (Json.arr [v], r3)
           | ',' :: r3 =>
             (match skipJsonWs r3 with
              | ']' :: _ => none
              | r4 =>
                match parseVal f ('[' :: r4) with
                | some (Json.arr vs, r5) => some (Json.arr (v :: vs), r5)
                | _ => none)
           | _ => none)
    | '{' :: r =>
      (match skipJsonWs r with
       | '}' :: r2 => some (Json.obj [], r2)
       | '"' :: r1 =>
         (match parseStrBody r1 with
          | none => none
          | some (k, r2) =>
            match skipJsonWs r2 with
            | ':' :: r3 =>
              (match parseVal f r3 with
               | none => none
               | some (v, r4) =>
                 match skipJsonWs r4 with
                 | '}' :: r5 => some (Json.obj [(k, v)], r5)
                 | ',' :: r5 =>
                   (match skipJsonWs r5 with
                    | '}' :: _ => none
                    | r6 =>
                      match parseVal f ('{' :: r6) with
                      | some (Json.obj ms, r7) => some (Json.obj ((k, v) :: ms), r7)
                      | _ => none)
                 | _ => none)
            | _ => none)
       | _ => none)
    | r => parseNum r

/-- Model of `JSON.parse`: one value spanning the whole input (trailing whitespace
allowed), `none` for a thrown `SyntaxError`. -/
def jsonParse (s : List Char) : Option Json :=
  match parseVal (2 * s.length + 8) s with
  | some (v, r) => if (skipJsonWs r).isEmpty then some v else none
  | none => none

/-- JavaScript `String(v)` for an embedded JSON value, with fuel for the
recursion into array elements (`Array.prototype.join(",")`, where a `null`
element contributes the empty string). -/
def jsToStringF : Nat → Json → List Char
  | 0, _ => []
  | _ + 1, Json.null => jstr ("null")
  | _ + 1, Json.bool true => jstr ("true")
  | _ + 1, Json.bool false => jstr ("false")
  | _ + 1, Json.num n => jstr (toString n)
  | _ + 1, Json.str s => s
  | _ + 1, Json.obj _ => jstr ("[object Object]")
  | _ + 1, Json.arr [] => []
  | f + 1, Json.arr [x] =>
    (match x with
     | Json.null => []
     | v => jsToStringF f v)
  | f + 1, Json.arr (x :: xs) =>
    (match x with
     | Json.null => []
     | v => jsToStringF f v) ++ ',' :: jsToStringF f (Json.arr xs)

/-- Decimal digit run for `parseInt`. -/
def decPart (r : List Char) : Option Nat :=
  let ds := r.takeWhile Char.isDigit
  if ds.isEmpty then none else some (decDigitsVal ds)

/-- Hexadecimal digit run for `parseInt` after a leading `0x`. -/
def hexPart (r : List Char) : Option Nat :=
  let ds := r.takeWhile (fun c => (hexDigitVal c).isSome)
  if ds.isEmpty then none
  else some (ds.foldl (fun a c => a * 16 + ((hexDigitVal c).getD 0)) 0)

/-- Leading digits of `parseInt`, with the implicit radix-16 `0x` marker. -/
def parseIntDigits : List Char → Option Nat
  | '0' :: c :: rest => if c = 'x' ∨ c = 'X' then hexPart rest else decPart ('0' :: c :: rest)
  | r => decPart r

/-- JavaScript `parseInt(s)`: strips leading whitespace, takes an optional
sign and the leading digit run; `none` is `NaN`. -/
def parseIntChars (s : List Char) : Option Int :=
  match s.dropWhile isTrimWsChar with
  | '-' :: r => (parseIntDigits r).map (fun n => -(n : Int))
  | '+' :: r => (parseIntDigits r).map (fun n => (n : Int))
  | r => (parseIntDigits r).map (fun n => (n : Int))

/-- JavaScript `parseInt(v)` on a possibly-absent JSON value: the value is converted to
a string first, exactly as JavaScript does (`parseInt(undefined)` is `NaN`). -/
def jsParseIntF (fuel : Nat) : Option Json → Option Int
  | none => none
  | some v => parseIntChars (jsToStringF fuel v)

/-- Strip control characters except `\n`, `\r`, `\t`
(`sanitizeJsonString`, step 1). -/
def stripCtrl (s : List Char) : List Char :=
  s.filter (fun c =>
    !(c.toNat ≤ 8 || c.toNat == 11 || c.toNat == 12 ||
      (14 ≤ c.toNat && c.toNat ≤ 31)))

/-- Single pass of the global replace `/,\s*([\]}])/g → "$1"`: a comma whose
whitespace run reaches a closing bracket is dropped together with that run
(`sanitizeJsonString`, step 2).  Fuel exceeds the input length, and every
step consumes at least one character. -/
def remTrailCommas : Nat → List Char → List Char
  | 0, s => s
  | _ + 1, [] => []
  | f + 1, c :: rest =>
    if c = ',' then
      (match rest.dropWhile isTrimWsChar with
       | b :: r2 =>
         if b = ']' ∨ b = '}' then b :: remTrailCommas f r2
         else c :: remTrailCommas f rest
       | [] => c :: remTrailCommas f rest)
    else c :: remTrailCommas f rest

/-- The replace `/,\s*$/ → ""`: drops a trailing comma (and the whitespace
after it) from the very end of the string. -/
def dropFinalComma (s : List Char) : List Char :=
  let rev := s.reverse.dropWhile isTrimWsChar
  match rev with
  | ',' :: r => r.reverse
  | _ => s

/-- Model of `sanitizeJsonString` from `quiz-generator.js`: strips control characters,
removes trailing commas before closing brackets, and when `[` outnumbers `]`
(truncated array) with incomplete content after the last `}`, cuts back to
that `}`, strips a trailing comma, and appends enough `]` to balance. -/
def sanitizeJsonString (s : List Char) : List Char :=
  let cleaned := remTrailCommas (s.length + 1) (stripCtrl s)
  let opens := cleaned.count '['
  let closes := cleaned.count ']'
  if opens > closes then
    match lastIdxOfChar '}' cleaned with
    | none => cleaned
    | some i =>
      let afterLast := jsTrim (cleaned.drop (i + 1))
      if !afterLast.isEmpty && !(jstr ("]")).isPrefixOf afterLast then
        dropFinalComma (cleaned.take (i + 1)) ++ List.replicate (opens - closes) ']'
      else cleaned
  else cleaned

/-- The backtick character (code 96). -/
def tickChar : Char := Char.ofNat 96

/-- Three backticks: a markdown code fence. -/
def tick3 : List Char := [tickChar, tickChar, tickChar]

/-- First capture of `/```(?:json)?\s*([\s\S]*?)```/`: content of the first
fenced block — after the opening fence an optional literal `json` tag and
the whitespace run are skipped, and the capture extends (lazily) to the next
fence.  `none` when the input has no fenced block. -/
def extractFenced (s : List Char) : Option (List Char) :=
  match findSubAux tick3 s with
  | none => none
  | some i =>
    let after := s.drop (i + 3)
    let afterTag := if (jstr ("json")).isPrefixOf after then after.drop 4 else after
    let body := afterTag.dropWhile isTrimWsChar
    match findSubAux tick3 body with
    | none => none
    | some j => some (body.take j)

/-- The array-extraction step of `parseQuestions`: slice from the first `[`
to the last `]`; otherwise wrap the span from the first `{` to the last `}`
in `[...]`; otherwise leave the string unchanged.  No separator commas are
inserted between concatenated objects. -/
def sliceStage (s : List Char) : List Char :=
  match idxOfChar '[' s, lastIdxOfChar ']' s with
  | some a, some b => jsSlice s a (b + 1)
  | _, _ =>
    match idxOfChar '{' s, lastIdxOfChar '}' s with
    | some a, some b => '[' :: jsSlice s a (b + 1) ++ [']']
    | _, _ => s

/-- Attempt of `/\{[^{}]*(?:\{[^{}]*\}[^{}]*)*\}/` at one position: after the
opening brace and a maximal brace-free run, repeat (one-level-nested group,
brace-free run) while possible and close at `}`.   Returns the match and the
remainder.  Fuel exceeds the input length; every loop step consumes at least
two characters. -/
def objLoop (fuel : Nat) (acc : List Char) (s : List Char) :
    Option (List Char × List Char) :=
  match fuel, s with
  | _, '}' :: r2 => some (acc ++ ['}'], r2)
  | f + 1, '{' :: r2 =>
    let inner := r2.takeWhile (fun c => !(c == '{' || c == '}'))
    (match r2.dropWhile (fun c => !(c == '{' || c == '}')) with
     | '}' :: r4 =>
       let outer := r4.takeWhile (fun c => !(c == '{' || c == '}'))
       objLoop f (acc ++ '{' :: inner ++ '}' :: outer)
         (r4.dropWhile (fun c => !(c == '{' || c == '}')))
     | _ => none)
  | _, _ => none

/-- Regex match attempt at a position that starts with `{`. -/
def matchObjAt (s : List Char) : Option (List Char × List Char) :=
  match s with
  | '{' :: r =>
    objLoop (s.length + 1)
      ('{' :: r.takeWhile (fun c => !(c == '{' || c == '}')))
      (r.dropWhile (fun c => !(c == '{' || c == '}')))
  | _ => none

/-- All matches of the balanced-brace object regex, scanning left to right
and resuming after each match (`String.prototype.match` with `/g`). -/
def scanObjs : Nat → List Char → List (List Char)
  | 0, _ => []
  | _ + 1, [] => []
  | f + 1, c :: rest =>
    if c = '{' then
      match matchObjAt (c :: rest) with
      | some (m, r2) => m :: scanObjs f r2
      | none => scanObjs f rest
    else scanObjs f rest

/-- The element list `parseQuestions` iterates over, before per-element
validation: `none` means the function returns `[]` without touching any
element.  Stages, as in the source: trim; extract a fenced block; slice to
the array span (or wrap the object span); sanitize; `JSON.parse`; on parse
failure fall back to regex-extracting balanced-brace substrings from the
*raw* input, sanitizing and parsing each and keeping the truthy results; a
non-array parse result is wrapped when it is an object and discarded
otherwise. -/
def candidates (raw : List Char) : Option (List Json) :=
  let trimmed := jsTrim raw
  if trimmed.isEmpty then none
  else
    let s1 := match extractFenced trimmed with
      | some cap => jsTrim cap
      | none => trimmed
    let s3 := sanitizeJsonString (sliceStage s1)
    match jsonParse s3 with
    | some (Json.arr l) => some l
    | some (Json.obj fields) => some [Json.obj fields]
    | some _ => none
    | none =>
      match scanObjs (raw.length + 1) raw with
      | [] => none
      | ms => some (((ms.filterMap (fun m => jsonParse (sanitizeJsonString m))).filter jsTruthy))

/-- The error a JavaScript `TypeError` escaping `parseQuestions` is
embedded as: reading a property of `null` in the validation filter. -/
inductive JsError where
  | typeError
deriving DecidableEq

/-- Key strings of the question records. -/
def kType : List Char := jstr ("type")

def kDifficulty : List Char := jstr ("difficulty")

def kSource : List Char := jstr ("source")

def kQuestion : List Char := jstr ("question")

def kChoices : List Char := jstr ("choices")

def kAnswer : List Char := jstr ("answer")

def kExplanation : List Char := jstr ("explanation")

def kFilePath : List Char := jstr ("file_path")

def kCodeSnippet : List Char := jstr ("code_snippet")

/-- Membership of the `validTypes` set in `parseQuestions`. -/
def isValidType (t : List Char) : Bool :=
  t == jstr ("single-choice") || t == jstr ("true-false") ||
  t == jstr ("open") || t == jstr ("find-the-bug")

/-- The normalized `difficulty` value:
`Math.min(5, Math.max(1, parseInt(q.difficulty) || 3))`.  Note `|| 3` fires
both on `NaN` (non-numeric input) and on a parsed `0` (zero is falsy). -/
def difficultyOfF (fuel : Nat) (v : Option Json) : Int :=
  match jsParseIntF fuel v with
  | none => 3
  | some n => if n = 0 then 3 else min 5 (max 1 n)

/-- The element normalization of `parseQuestions` (the `.map` body, fused
with the `q.type` coercion the `.filter` body performs): builds the record
with exactly the eight keys the source writes. -/
def normalizeQuestion (fuel : Nat) (q : Json) : Json :=
  Json.obj
    [ (kType,
        match jsGet q kType with
        | some (Json.str t) => if isValidType t then Json.str t else Json.str (jstr ("single-choice"))
        | _ => Json.str (jstr ("single-choice"))),
      (kDifficulty, Json.num (difficultyOfF fuel (jsGet q kDifficulty))),
      (kSource,
        match jsGet q kSource with
        | some (Json.str s) => if s = jstr ("project") then Json.str (jstr ("project")) else Json.str (jstr ("general"))
        | _ => Json.str (jstr ("general"))),
      (kQuestion, (jsGet q kQuestion).getD Json.null),
      (kChoices,
        match jsGet q kChoices with
        | some (Json.arr l) => Json.arr l
        | _ => Json.null),
      (kAnswer, Json.str (jsToStringF fuel ((jsGet q kAnswer).getD Json.null))),
      (kExplanation,
        match jsGet q kExplanation with
        | some v => if jsTruthy v then v else Json.str []
        | none => Json.str []),
      (kFilePath,
        match jsGet q kFilePath with
        | some v => if jsTruthy v then v else Json.null
        | none => Json.null) ]

/-- The `.filter`/`.map` pass of `parseQuestions` over the element list:
reading `q.question` on a `null` element throws a `TypeError` (the filter
callback's `!q.question` evaluates `null.question`); an element without a
truthy `question` and `answer` is dropped; the rest are normalized. -/
def isNullJson : Json → Bool
  | Json.null => true
  | _ => false

def validateElems (fuel : Nat) : List Json → Except JsError (List Json)
  | [] => Except.ok []
  | q :: rest =>
    if isNullJson q then Except.error JsError.typeError
    else if jsTruthyO (jsGet q kQuestion) && jsTruthyO (jsGet q kAnswer) then
      match validateElems fuel rest with
      | Except.ok qs => Except.ok (normalizeQuestion fuel q :: qs)
      | Except.error e => Except.error e
    else validateElems fuel rest

/-- Model of `parseQuestions` from `quiz-generator.js`: the full pipeline.  The fuel
passed to the value-to-string conversions exceeds the raw length, which
bounds the size of any parsed value. -/
def parseQuestionsE (raw : List Char) : Except JsError (List Json) :=
  match candidates raw with
  | none => Except.ok []
  | some l => validateElems (raw.length + 8) l

/-- JavaScript `Math.round`: round half toward positive infinity. -/
def jsRound (x : ℚ) : Int := ⌊x + 1 / 2⌋

/-- A review record as stored in the `reviews` table and consumed by
`calculateNextReview` (the `next_review` timestamp is computed from the wall
clock in the source and is modelled separately, in the question bank). -/
structure ReviewState where
  ease_factor : ℚ
  interval_d : Int
  repetitions : Int
deriving DecidableEq

/-- Model of `calculateNextReview` from `spaced-repetition.js`: quality is clamped to
[0,5]; on failure (quality < 3) repetitions reset to 0 and the interval to
1 day; on success the interval is 1, 6, or `Math.round` of interval times
the pre-update ease factor, and repetitions increment; the ease factor is
then updated by the SM-2 formula from the clamped quality, floored at 1.3,
and rounded to 2 decimal places. -/
def calculateNextReview (current : ReviewState) (quality : ℚ) : ReviewState :=
  let q := min 5 (max 0 quality)
  let reps := if q < 3 then 0 else current.repetitions + 1
  let interval :=
    if q < 3 then 1
    else if current.repetitions = 0 then 1
    else if current.repetitions = 1 then 6
    else jsRound ((current.interval_d : ℚ) * current.ease_factor)
  let ef := current.ease_factor + (0.1 - (5 - q) * (0.08 + (5 - q) * 0.02))
  let ef2 := if ef < 1.3 then 1.3 else ef
  { ease_factor := (jsRound (ef2 * 100) : ℚ) / 100,
    interval_d := interval,
    repetitions := reps }

/-- JavaScript `String.prototype.toLowerCase` (ASCII range). -/
def jsToLower (s : List Char) : List Char := s.map Char.toLower

/-- JavaScript `String.prototype.includes`: the needle occurs as a contiguous
substring of the haystack. -/
def occursIn (needle : List Char) : List Char → Bool
  | [] => needle.isEmpty
  | c :: t => needle.isPrefixOf (c :: t) || occursIn needle t

/-- Split into maximal whitespace-free words: the result of
`split(/\s+/)` with empty fragments dropped (the length-filter in the
grader drops them anyway). -/
def wordsAux : List Char → List Char → List (List Char)
  | [], acc => if acc.isEmpty then [] else [acc.reverse]
  | c :: rest, acc =>
    if isTrimWsChar c then
      if acc.isEmpty then wordsAux rest [] else acc.reverse :: wordsAux rest []
    else wordsAux rest (c :: acc)

/-- The words of a string. -/
def wordsOf (s : List Char) : List (List Char) := wordsAux s []

/-- The qualifying words of the canonical answer in `submitOpenAnswer`:
lowercase, trim, split on whitespace, keep words longer than 3 characters. -/
def qualifyingWords (answer : List Char) : List (List Char) :=
  (wordsOf (jsTrim (jsToLower answer))).filter (fun w => decide (w.length > 3))

/-- The qualifying words that occur in the user's lowercased, trimmed
response. -/
def matchedWords (answer response : List Char) : List (List Char) :=
  (qualifyingWords answer).filter (fun w => occursIn w (jsTrim (jsToLower response)))

/-- The correctness verdict of `submitOpenAnswer` (open and find-the-bug
questions): correct when there is at least one qualifying word and the
matched fraction reaches one half. -/
def submitOpenAnswerIsCorrect (answer response : List Char) : Bool :=
  decide (0 < (qualifyingWords answer).length) &&
  decide ((0.5 : ℚ) ≤ ((matchedWords answer response).length : ℚ) /
    ((qualifyingWords answer).length : ℚ))

/-- The columns of a `questions` row that `getDueQuestions` touches. -/
structure QuestionRow where
  id : Nat
  project_id : Int
deriving DecidableEq

/-- A `reviews` row.  Timestamps are embedded as naturals; SQLite compares
the `datetime('now')` strings lexicographically, which on the fixed format
agrees with chronological order. -/
structure ReviewRow where
  question_id : Nat
  ease_factor : ℚ
  interval_d : Int
  repetitions : Int
  next_review : Nat
  last_review : Option Nat
deriving DecidableEq

/-- Insert into a list sorted by `next_review` (ascending). -/
def insertByNextReview (x : QuestionRow × ReviewRow) :
    List (QuestionRow × ReviewRow) → List (QuestionRow × ReviewRow)
  | [] => [x]
  | y :: rest =>
    if x.2.next_review ≤ y.2.next_review then x :: y :: rest
    else y :: insertByNextReview x rest

/-- Insertion sort by `next_review` ascending (`ORDER BY r.next_review ASC`;
the order of equal keys is unspecified in SQL and irrelevant here). -/
def sortByNextReview :
    List (QuestionRow × ReviewRow) → List (QuestionRow × ReviewRow)
  | [] => []
  | x :: rest => insertByNextReview x (sortByNextReview rest)

/-- Model of `getDueQuestions` from `database.js`: join questions with their reviews,
keep the rows with `next_review <= now` (and, when a truthy `projectId` is
supplied, the matching project), order ascending by `next_review`, and
truncate to `count` rows. -/
def dueEligible (questions : List QuestionRow) (reviews : List ReviewRow)
    (now : Nat) (projectId : Option Int) : List (QuestionRow × ReviewRow) :=
  (questions.flatMap
    (fun q => (reviews.filter (fun r => r.question_id == q.id)).map (fun r => (q, r)))).filter
    (fun x =>
      decide (x.2.next_review ≤ now) &&
      (match projectId with
       | some p => if p = 0 then true else decide (x.1.project_id = p)
       | none => true))

def getDueQuestions (questions : List QuestionRow) (reviews : List ReviewRow)
    (now : Nat) (count : Nat) (projectId : Option Int) :
    List (QuestionRow × ReviewRow) :=
  (sortByNextReview (dueEligible questions reviews now projectId)).take count

/-- The `code_snippet` column value `insertQuestions` binds for a parsed
question record: `q.code_snippet || null`. -/
def insertedCodeSnippet (q : Json) : Json :=
  match jsGet q kCodeSnippet with
  | some v => if jsTruthy v then v else Json.null
  | none => Json.null

/-- Dividing the 2-decimal rounding by 100 preserves the 1.3 floor. -/
theorem jsRound_hundred_floor (x : ℚ) (hx : 13 / 10 ≤ x) :
    13 / 10 ≤ (jsRound (x * 100) : ℚ) / 100 := by
  have h1 : (130 : Int) ≤ jsRound (x * 100) := by
    unfold jsRound
    exact Int.le_floor.mpr (by push_cast; linarith)
  have h2 : (130 : ℚ) ≤ (jsRound (x * 100) : ℚ) := by exact_mod_cast h1
  rw [le_div_iff₀ (by norm_num : (0 : ℚ) < 100)]
  linarith

/-- The 1.3-clamp of the source, as a max. -/
theorem ite_clamp_eq_max (E : ℚ) : (if E < 1.3 then (1.3 : ℚ) else E) = max 1.3 E := by
  rcases lt_or_le E (1.3 : ℚ) with hE | hE
  · rw [if_pos hE, max_eq_left hE.le]
  · rw [if_neg (not_lt.mpr hE), max_eq_right hE]

/-- The ease-factor component of `calculateNextReview`, in clamp-as-max form. -/
theorem calcNR_ease (st : ReviewState) (q : ℚ) :
    (calculateNextReview st q).ease_factor =
      (jsRound ((max 1.3 (st.ease_factor +
        (0.1 - (5 - min 5 (max 0 q)) * (0.08 + (5 - min 5 (max 0 q)) * 0.02)))) * 100) : ℚ) / 100 := by
  simp only [calculateNextReview]
  rw [ite_clamp_eq_max]

/-- C2: for every quality and every prior state with ease factor at least
1.3, `calculateNextReview` returns an ease factor at least 1.3, equal to the
SM-2 formula applied to the pre-update ease factor and the clamped quality,
clamped to minimum 1.3 and rounded to 2 decimal places. -/
theorem sm2_ease_factor_min (st : ReviewState) (q : ℚ)
    (h : 13 / 10 ≤ st.ease_factor) :
    13 / 10 ≤ (calculateNextReview st q).ease_factor ∧
    (calculateNextReview st q).ease_factor =
      (jsRound ((max 1.3 (st.ease_factor +
        (0.1 - (5 - min 5 (max 0 q)) * (0.08 + (5 - min 5 (max 0 q)) * 0.02)))) * 100) : ℚ) / 100 := by
  refine ⟨?_, calcNR_ease st q⟩
  rw [calcNR_ease]
  exact jsRound_hundred_floor _
    (le_trans (by norm_num : (13 : ℚ) / 10 ≤ 1.3) (le_max_left _ _))

/-- C2 witness: a concrete instance with prior ease 2.5 and quality 3. -/
theorem sm2_ease_factor_min_witness :
    (13 : ℚ) / 10 ≤ (5 : ℚ) / 2 ∧
    13 / 10 ≤ (calculateNextReview ⟨5 / 2, 0, 0⟩ 3).ease_factor :=
  ⟨by norm_num, (sm2_ease_factor_min ⟨5 / 2, 0, 0⟩ 3 (by norm_num)).1⟩

/-- C3: whenever the clamped quality is below 3, the returned state has
repetitions 0 and a 1-day interval, whatever the prior state was. -/
theorem sm2_failure_resets (st : ReviewState) (q : ℚ)
    (h : min 5 (max 0 q) < 3) :
    (calculateNextReview st q).repetitions = 0 ∧
    (calculateNextReview st q).interval_d = 1 := by
  simp only [calculateNextReview]
  rw [if_pos h, if_pos h]
  exact ⟨rfl, rfl⟩

/-- C3 witness: quality 1 against a mature prior state. -/
theorem sm2_failure_resets_witness :
    min 5 (max 0 (1 : ℚ)) < 3 ∧
    (calculateNextReview ⟨5 / 2, 6, 4⟩ 1).repetitions = 0 ∧
    (calculateNextReview ⟨5 / 2, 6, 4⟩ 1).interval_d = 1 :=
  ⟨by norm_num, (sm2_failure_resets ⟨5 / 2, 6, 4⟩ 1 (by norm_num)).1,
    (sm2_failure_resets ⟨5 / 2, 6, 4⟩ 1 (by norm_num)).2⟩

/-- C4: whenever the clamped quality is at least 3, the new interval is 1
for prior repetitions 0, 6 for prior repetitions 1, and otherwise the
rounding of prior interval times the pre-update ease factor; repetitions
always increment. -/
theorem sm2_success_update (st : ReviewState) (q : ℚ)
    (h : 3 ≤ min 5 (max 0 q)) :
    (calculateNextReview st q).interval_d =
      (if st.repetitions = 0 then 1
       else if st.repetitions = 1 then 6
       else jsRound ((st.interval_d : ℚ) * st.ease_factor)) ∧
    (calculateNextReview st q).repetitions = st.repetitions + 1 := by
  have h2 : ¬ (min 5 (max 0 q) < 3) := not_lt.mpr h
  simp only [calculateNextReview]
  rw [if_neg h2, if_neg h2]
  exact ⟨rfl, rfl⟩

/-- C4 witness: the spec's worked example — prior repetitions 2, interval 6,
ease 2.5, quality 4 gives interval 15 and repetitions 3. -/
theorem sm2_success_update_witness :
    (3 : ℚ) ≤ min 5 (max 0 (4 : ℚ)) ∧
    (calculateNextReview ⟨5 / 2, 6, 2⟩ 4).interval_d = 15 ∧
    (calculateNextReview ⟨5 / 2, 6, 2⟩ 4).repetitions = 3 := by
  have h3 : (3 : ℚ) ≤ min 5 (max 0 (4 : ℚ)) := by norm_num
  have hc := sm2_success_update ⟨5 / 2, 6, 2⟩ 4 h3
  refine ⟨h3, ?_, ?_⟩
  · rw [hc.1]
    norm_num
    unfold jsRound
    rw [Int.floor_eq_iff]
    norm_num
  · rw [hc.2]
    rfl

/-- C5: the open/find-the-bug grader marks a response correct exactly when
the canonical answer has at least one qualifying word (longer than 3
characters) and at least half of the qualifying words occur as substrings
of the lowercased, trimmed response; with zero qualifying words every
response is incorrect. -/
theorem open_answer_fuzzy_iff (answer response : List Char) :
    submitOpenAnswerIsCorrect answer response = true ↔
    (0 < (qualifyingWords answer).length ∧
     (qualifyingWords answer).length ≤ 2 * (matchedWords answer response).length) := by
  unfold submitOpenAnswerIsCorrect
  rw [Bool.and_eq_true, decide_eq_true_iff, decide_eq_true_iff]
  constructor
  · rintro ⟨h1, h2⟩
    refine ⟨h1, ?_⟩
    have hq : (0 : ℚ) < ((qualifyingWords answer).length : ℚ) := by exact_mod_cast h1
    rw [le_div_iff₀ hq] at h2
    have hcast : ((qualifyingWords answer).length : ℚ) ≤
        2 * ((matchedWords answer response).length : ℚ) := by linarith
    exact_mod_cast hcast
  · rintro ⟨h1, h2⟩
    refine ⟨h1, ?_⟩
    have hq : (0 : ℚ) < ((qualifyingWords answer).length : ℚ) := by exact_mod_cast h1
    rw [le_div_iff₀ hq]
    have hcast : ((qualifyingWords answer).length : ℚ) ≤
        2 * ((matchedWords answer response).length : ℚ) := by exact_mod_cast h2
    linarith

/-- Inserting into the sorted join keeps exactly the members. -/
theorem mem_insertByNextReview (x y : QuestionRow × ReviewRow)
    (l : List (QuestionRow × ReviewRow)) :
    y ∈ insertByNextReview x l ↔ y ∈ x :: l := by
  induction l with
  | nil => simp [insertByNextReview]
  | cons a t ih =>
    unfold insertByNextReview
    split
    · exact Iff.rfl
    · simp only [List.mem_cons, ih]
      tauto

/-- Inserting into a list sorted by `next_review` preserves sortedness. -/
theorem sorted_insertByNextReview (x : QuestionRow × ReviewRow)
    (l : List (QuestionRow × ReviewRow))
    (h : l.Sorted (fun a b => a.2.next_review ≤ b.2.next_review)) :
    (insertByNextReview x l).Sorted (fun a b => a.2.next_review ≤ b.2.next_review) := by
  induction l with
  | nil => simp [insertByNextReview]
  | cons a t ih =>
    rw [List.sorted_cons] at h
    unfold insertByNextReview
    split
    · rw [List.sorted_cons]
      refine ⟨?_, List.sorted_cons.mpr h⟩
      intro b hb
      rcases List.mem_cons.mp hb with rfl | hb2
      · assumption
      · exact le_trans (by assumption) (h.1 b hb2)
    · rw [List.sorted_cons]
      refine ⟨?_, ih h.2⟩
      intro b hb
      rcases List.mem_cons.mp ((mem_insertByNextReview x b t).mp hb) with rfl | hb2
      · exact le_of_lt (lt_of_not_le (by assumption))
      · exact h.1 b hb2

/-- The insertion sort keeps exactly the members. -/
theorem mem_sortByNextReview (y : QuestionRow × ReviewRow)
    (l : List (QuestionRow × ReviewRow)) :
    y ∈ sortByNextReview l ↔ y ∈ l := by
  induction l with
  | nil => exact Iff.rfl
  | cons a t ih =>
    unfold sortByNextReview
    rw [mem_insertByNextReview]
    simp [ih]

/-- The insertion sort sorts by `next_review` ascending. -/
theorem sorted_sortByNextReview (l : List (QuestionRow × ReviewRow)) :
    (sortByNextReview l).Sorted (fun a b => a.2.next_review ≤ b.2.next_review) := by
  induction l with
  | nil => exact List.sorted_nil
  | cons a t ih => exact sorted_insertByNextReview a (sortByNextReview t) ih

/-- C8: `getDueQuestions` returns only rows whose `next_review` is at or
before `now` (a future-dated question is excluded until `now` passes its
timestamp), in ascending `next_review` order, truncated to at most `count`
rows, for every `count` and optional `projectId`. -/
theorem due_questions_policy (questions : List QuestionRow)
    (reviews : List ReviewRow) (now count : Nat) (projectId : Option Int) :
    (∀ x ∈ getDueQuestions questions reviews now count projectId,
      x.2.next_review ≤ now) ∧
    (getDueQuestions questions reviews now count projectId).Sorted
      (fun a b => a.2.next_review ≤ b.2.next_review) ∧
    (getDueQuestions questions reviews now count projectId).length ≤ count := by
  refine ⟨?_, ?_, ?_⟩
  · intro x hx
    have hx2 : x ∈ sortByNextReview (dueEligible questions reviews now projectId) :=
      List.mem_of_mem_take hx
    rw [mem_sortByNextReview] at hx2
    have hx3 := (List.mem_filter.mp hx2).2
    rw [Bool.and_eq_true] at hx3
    exact of_decide_eq_true hx3.1
  · exact (sorted_sortByNextReview _).sublist (List.take_sublist _ _)
  · exact List.length_take_le _ _

/-- Concrete rows for the C8 witness: question 1 due at time 3, question 2
due at time 10. -/
def dueQs0 : List QuestionRow := [⟨1, 1⟩, ⟨2, 1⟩]

def dueRs0 : List ReviewRow :=
  [⟨1, 5 / 2, 0, 0, 3, none⟩, ⟨2, 5 / 2, 0, 0, 10, none⟩]

def dueRow0 : QuestionRow × ReviewRow := (⟨1, 1⟩, ⟨1, 5 / 2, 0, 0, 3, none⟩)

/-- C8 witness: at time 5 only the first question is returned, and the
theorem yields its due bound. -/
theorem due_questions_policy_witness :
    dueRow0 ∈ getDueQuestions dueQs0 dueRs0 5 7 none ∧
    dueRow0.2.next_review ≤ 5 := by
  have hres : getDueQuestions dueQs0 dueRs0 5 7 none = [dueRow0] := rfl
  have hmem : dueRow0 ∈ getDueQuestions dueQs0 dueRs0 5 7 none := by
    rw [hres]
    exact List.mem_singleton.mpr rfl
  exact ⟨hmem, (due_questions_policy dueQs0 dueRs0 5 7 none).1 dueRow0 hmem⟩

/-- Every element of a successful validation pass is a normalized record. -/
theorem validateElems_mem (fuel : Nat) (l qs : List Json)
    (h : validateElems fuel l = Except.ok qs) :
    ∀ q ∈ qs, ∃ v, q = normalizeQuestion fuel v := by
  induction l generalizing qs with
  | nil =>
    simp only [validateElems] at h
    injection h with h2
    subst h2
    intro q hq
    simp at hq
  | cons x rest ih =>
    rw [validateElems] at h
    split at h
    · simp at h
    · split at h
      · cases hrec : validateElems fuel rest with
        | ok qs2 =>
          rw [hrec] at h
          dsimp only at h
          injection h with h2
          subst h2
          intro q hq
          rcases List.mem_cons.mp hq with rfl | hq2
          · exact ⟨x, rfl⟩
          · exact ih qs2 hrec q hq2
        | error e =>
          rw [hrec] at h
          simp at h
      · exact ih qs h

/-- A normalized record carries no `code_snippet` field. -/
theorem jsGet_normalizeQuestion_codeSnippet (fuel : Nat) (v : Json) :
    jsGet (normalizeQuestion fuel v) kCodeSnippet = none := rfl

/-- A normalized record's `difficulty` field is the normalized difficulty of
the element's supplied `difficulty`. -/
theorem jsGet_normalizeQuestion_difficulty (fuel : Nat) (v : Json) :
    jsGet (normalizeQuestion fuel v) kDifficulty =
      some (Json.num (difficultyOfF fuel (jsGet v kDifficulty))) := rfl

/-- C1: evaluation of the parser at the failing input `[null]` — valid JSON
whose array contains a non-object element.  The validation filter evaluates
`q.question` on `null`, and the resulting `TypeError` escapes
`parseQuestions` to its caller, contradicting the never-throws contract. -/
theorem parseQuestions_throws_on_null_element :
    parseQuestionsE (jstr ("[null]")) = Except.error JsError.typeError := rfl

/-- C10: no record returned by `parseQuestions` carries a `code_snippet`
field, so the `insertQuestions` binding `q.code_snippet || null` stores
`null` for every generated question. -/
theorem parser_drops_code_snippet (raw : List Char) (qs : List Json)
    (h : parseQuestionsE raw = Except.ok qs) :
    ∀ q ∈ qs, jsGet q kCodeSnippet = none ∧ insertedCodeSnippet q = Json.null := by
  unfold parseQuestionsE at h
  intro q hq
  cases hcand : candidates raw with
  | none =>
    rw [hcand] at h
    dsimp only at h
    injection h with h2
    subst h2
    simp at hq
  | some l =>
    rw [hcand] at h
    dsimp only at h
    obtain ⟨v, rfl⟩ := validateElems_mem _ _ _ h q hq
    refine ⟨jsGet_normalizeQuestion_codeSnippet _ _, ?_⟩
    unfold insertedCodeSnippet
    rw [jsGet_normalizeQuestion_codeSnippet]

/-- C10 witness input: the element supplies a `code_snippet` value. -/
def c10Input : List Char :=
  jstr ("[\x7b\"question\":\"Q?\",\"answer\":\"a\",\"code_snippet\":\"x = 1\"\x7d]")

/-- The record the parser returns for `c10Input`. -/
def c10Out : Json :=
  Json.obj
    [ (kType, Json.str (jstr ("single-choice"))),
      (kDifficulty, Json.num 3),
      (kSource, Json.str (jstr ("general"))),
      (kQuestion, Json.str (jstr ("Q?"))),
      (kChoices, Json.null),
      (kAnswer, Json.str (jstr ("a"))),
      (kExplanation, Json.str []),
      (kFilePath, Json.null) ]

/-- C10 witness: on a concrete input whose element supplies a
`code_snippet`, the returned record has none and the inserted column is
`null`. -/
theorem parser_drops_code_snippet_witness :
    jsGet c10Out kCodeSnippet = none ∧ insertedCodeSnippet c10Out = Json.null :=
  parser_drops_code_snippet c10Input [c10Out] rfl c10Out (List.mem_singleton.mpr rfl)

/-- C9 counterexample input: a supplied numeric difficulty of `0`. -/
def c9Input : List Char :=
  jstr ("[\x7b\"question\":\"Q?\",\"answer\":\"a\",\"difficulty\":0\x7d]")

/-- The record the parser returns for `c9Input`. -/
def c9Out : Json :=
  Json.obj
    [ (kType, Json.str (jstr ("single-choice"))),
      (kDifficulty, Json.num 3),
      (kSource, Json.str (jstr ("general"))),
      (kQuestion, Json.str (jstr ("Q?"))),
      (kChoices, Json.null),
      (kAnswer, Json.str (jstr ("a"))),
      (kExplanation, Json.str []),
      (kFilePath, Json.null) ]

/-- C9 counterexample: a supplied numeric difficulty of `0` is normalized to
the default `3`, not clamped to `1` — `parseInt(q.difficulty) || 3` treats
the parsed `0` as falsy. -/
theorem parser_difficulty_zero_cex :
    parseQuestionsE c9Input = Except.ok [c9Out] ∧
    jsGet c9Out kDifficulty = some (Json.num 3) :=
  ⟨rfl, rfl⟩

/-- C9 (amended): the normalized difficulty is `min 5 (max 1 n)` when
`parseInt` of the supplied value yields a nonzero `n`, and `3` when it
yields `NaN` (non-numeric input) or `0`; the result always lies in `[1, 5]`,
and it is exactly the `difficulty` field of every normalized record. -/
theorem parser_difficulty_rule (fuel : Nat) (ov : Option Json) (n : Int) (q : Json) :
    (jsParseIntF fuel ov = some n → n ≠ 0 →
      difficultyOfF fuel ov = min 5 (max 1 n)) ∧
    (jsParseIntF fuel ov = none → difficultyOfF fuel ov = 3) ∧
    (jsParseIntF fuel ov = some 0 → difficultyOfF fuel ov = 3) ∧
    (1 ≤ difficultyOfF fuel ov ∧ difficultyOfF fuel ov ≤ 5) ∧
    jsGet (normalizeQuestion fuel q) kDifficulty =
      some (Json.num (difficultyOfF fuel (jsGet q kDifficulty))) := by
  refine ⟨?_, ?_, ?_, ?_, jsGet_normalizeQuestion_difficulty fuel q⟩
  · intro h hn
    unfold difficultyOfF
    rw [h]
    exact if_neg hn
  · intro h
    unfold difficultyOfF
    rw [h]
  · intro h
    unfold difficultyOfF
    rw [h]
    rfl
  · unfold difficultyOfF
    cases jsParseIntF fuel ov with
    | none => exact ⟨by norm_num, by norm_num⟩
    | some m =>
      constructor
      · show (1 : Int) ≤ if m = 0 then 3 else min 5 (max 1 m)
        split <;> omega
      · show (if m = 0 then 3 else min 5 (max 1 m) : Int) ≤ 5
        split <;> omega

/-- C9 witness: a supplied numeric difficulty of `7` is clamped to `5`. -/
theorem parser_difficulty_rule_witness :
    difficultyOfF 1 (some (Json.num 7)) = 5 := by
  have h := (parser_difficulty_rule 1 (some (Json.num 7)) 7 Json.null).1 rfl (by decide)
  rw [h]
  decide

/-- C6 input from the spec: two flat concatenated bare objects. -/
def c6Input : List Char :=
  jstr ("\x7b\"question\":\"A?\",\"answer\":\"x\"\x7d\x7b\"question\":\"B?\",\"answer\":\"y\"\x7d")

/-- First record recovered from `c6Input`. -/
def c6OutA : Json :=
  Json.obj
    [ (kType, Json.str (jstr ("single-choice"))),
      (kDifficulty, Json.num 3),
      (kSource, Json.str (jstr ("general"))),
      (kQuestion, Json.str (jstr ("A?"))),
      (kChoices, Json.null),
      (kAnswer, Json.str (jstr ("x"))),
      (kExplanation, Json.str []),
      (kFilePath, Json.null) ]

/-- Second record recovered from `c6Input`. -/
def c6OutB : Json :=
  Json.obj
    [ (kType, Json.str (jstr ("single-choice"))),
      (kDifficulty, Json.num 3),
      (kSource, Json.str (jstr ("general"))),
      (kQuestion, Json.str (jstr ("B?"))),
      (kChoices, Json.null),
      (kAnswer, Json.str (jstr ("y"))),
      (kExplanation, Json.str []),
      (kFilePath, Json.null) ]

/-- C6 counterexample input: still two concatenated bare objects with
non-empty `question`/`answer`, but the first contains two levels of nested
objects. -/
def c6NestedInput : List Char :=
  jstr ("\x7b\"question\":\"A?\",\"answer\":\"x\",\"m\":\x7b\"a\":\x7b\"b\":1\x7d\x7d\x7d\x7b\"question\":\"B?\",\"answer\":\"y\"\x7d")

/-- The single record recovered from `c6NestedInput` (question B). -/
def c6NestedOut : Json :=
  Json.obj
    [ (kType, Json.str (jstr ("single-choice"))),
      (kDifficulty, Json.num 3),
      (kSource, Json.str (jstr ("general"))),
      (kQuestion, Json.str (jstr ("B?"))),
      (kChoices, Json.null),
      (kAnswer, Json.str (jstr ("y"))),
      (kExplanation, Json.str []),
      (kFilePath, Json.null) ]

/-- C6 counterexample: on two concatenated bare objects, each with non-empty
`question` and `answer`, the code does not insert a separating comma — the
bracket-wrapped string fails to parse and the regex fallback loses the first
object (it contains two levels of nesting), so exactly one record comes
back, not two. -/
theorem parser_concat_mechanism_cex :
    parseQuestionsE c6NestedInput = Except.ok [c6NestedOut] ∧
    (parseQuestionsE c6NestedInput).toOption.map List.length = some 1 :=
  ⟨rfl, rfl⟩

/-- C6 (amended): for the spec's concrete input — two flat concatenated bare
objects — exactly two normalized records are recovered; the mechanism is the
comma-less `[...]` wrap whose parse fails, followed by the balanced-brace
regex fallback on the raw input. -/
theorem parser_concat_two_objects :
    parseQuestionsE c6Input = Except.ok [c6OutA, c6OutB] := rfl

/-- C7 input from the spec: an array truncated mid-object (one `[`,
no `]`). -/
def c7Input : List Char :=
  jstr ("[\x7b\"question\":\"A?\",\"answer\":\"x\"\x7d,\x7b\"question\":\"B?\",\"answer\":")

/-- The single record recovered from `c7Input` (the complete first
object). -/
def c7Out : Json :=
  Json.obj
    [ (kType, Json.str (jstr ("single-choice"))),
      (kDifficulty, Json.num 3),
      (kSource, Json.str (jstr ("general"))),
      (kQuestion, Json.str (jstr ("A?"))),
      (kChoices, Json.null),
      (kAnswer, Json.str (jstr ("x"))),
      (kExplanation, Json.str []),
      (kFilePath, Json.null) ]

/-- C7: the truncated spec input does not crash the parser and recovers
exactly the complete first object as one normalized record: the object span
up to the last complete `}` is kept (the trailing fragment after it is
dropped) and the balance of brackets is restored before parsing. -/
theorem parser_truncated_array_recovery :
    parseQuestionsE c7Input = Except.ok [c7Out] := rfl
